import Mathlib

/-!
# Verification of `ChangeDataDict` (json-change-data)

A shallow embedding of `src/main.py`: a history-keeping mapping where every
write or delete appends a timestamped `ChangeRecord` to the key's history,
reads resolve a "current record" through a lookup policy (last / first /
as-of-timestamp), and the structure supports diffing two policies and a JSON
projection of the raw history.

Python values relevant to the claims are modelled by `PyVal` (Python `None`,
`int`, `str`, and 2-tuples, which is the shape of the `DELETED` /
`NON_EXISTENT` sentinels).  Errors are modelled by `PyErr` (`KeyError` /
`ValueError`).  The wall clock is passed explicitly (`now`) to the mutation
operations; when the pinned timestamp `set_ts` is configured it takes
precedence, exactly as in `_create_item`.
-/

namespace ChangeData

/-- Model of the Python values the claims need: `None`, integers, strings and
2-tuples (the sentinel constants `DELETED = (None, 'DELETED')` and
`NON_EXISTENT = (None, 'NON_EXISTENT')` are 2-tuples).  Structural equality
on this fragment coincides with Python `==`. -/
inductive PyVal where
  | pynone
  | int (n : Int)
  | str (s : String)
  | pair (a b : PyVal)
deriving DecidableEq, Repr

/-- `LookupType` from `main.py`: `LAST = 1`, `FIRST = 2`, `TIMESTAMP = 3`. -/
inductive LookupType where
  | LAST
  | FIRST
  | TIMESTAMP
deriving DecidableEq, Repr

/-- Python exceptions the class raises: `KeyError(key)` and `ValueError`. -/
inductive PyErr where
  | keyError (k : PyVal)
  | valueError
deriving DecidableEq, Repr

/-- One history item as built by `_create_item`: the dict
`{'ts': ts, 'value': value}` plus `'del': True` when deleting and the
optional `'version'` / `'source'` tags.  `del` models the presence of the
`'del'` key (`item.get('del', False)`); a tombstone stores `value = None`. -/
structure ChangeRecord where
  ts : Int
  value : PyVal
  del : Bool
  version : Option PyVal
  source : Option PyVal
deriving DecidableEq, Repr

/-- The state of a `ChangeDataDict`.  `store` is the insertion-ordered
`self._store` as an association list from key to the key's ordered history. -/
structure ChangeDataDict where
  store : List (PyVal × List ChangeRecord)
  lookup_type : LookupType
  lookup_ts : Option Int
  latest_ts : Int
  set_ts : Option Int
  lazy_update : Bool
  version : Option PyVal
  source : Option PyVal
deriving DecidableEq, Repr

/-- The freshly initialised state (`__init__` before any argument is
applied): empty store, `LookupType.LAST`, `latest_ts = 0`, no pin. -/
def initEmpty : ChangeDataDict :=
  { store := [], lookup_type := .LAST, lookup_ts := none, latest_ts := 0,
    set_ts := none, lazy_update := false, version := none, source := none }

/-- `self._store[key]` as an association-list lookup (`none` = `KeyError`). -/
def lookupStore (s : List (PyVal × List ChangeRecord)) (k : PyVal) :
    Option (List ChangeRecord) :=
  match s with
  | [] => none
  | (k', h) :: rest => if k' = k then some h else lookupStore rest k

/-- `key in self._store`. -/
def storeContains (s : List (PyVal × List ChangeRecord)) (k : PyVal) : Bool :=
  (lookupStore s k).isSome

/-- The comparison `item['ts'] > lookup_ts` from `_get_item`.  In Python 2 an
integer compares greater than `None`, so with `lookup_ts = None` every item
breaks the loop immediately. -/
def tsExceeds (ts : Int) (lookup_ts : Option Int) : Bool :=
  match lookup_ts with
  | none => true
  | some l => ts > l

/-- The `LookupType.TIMESTAMP` loop of `_get_item`:
`cur_item = None; for item in history: if item['ts'] > lookup_ts: break;
cur_item = item`. -/
def tsLoop (acc : Option ChangeRecord) (history : List ChangeRecord)
    (lookup_ts : Option Int) : Option ChangeRecord :=
  match history with
  | [] => acc
  | item :: rest =>
      if tsExceeds item.ts lookup_ts then acc
      else tsLoop (some item) rest lookup_ts

/-- `_get_item` applied to the key's history: `LAST` → `history[-1]`,
`FIRST` → `history[0]`, `TIMESTAMP` → the scan loop.  (Histories in reachable
states are never empty; on `[]` the Python indexings would raise.) -/
def getItemCore (history : List ChangeRecord) (lt : LookupType)
    (lookup_ts : Option Int) : Option ChangeRecord :=
  match lt with
  | .LAST => history.getLast?
  | .FIRST => history.head?
  | .TIMESTAMP => tsLoop none history lookup_ts

/-- `get_item(key)`: `_get_item(key, self.lookup_type, self.lookup_ts)`.
The outer `Option` is the `KeyError` from `self._store[key]` on a missing
key. -/
def get_item (d : ChangeDataDict) (k : PyVal) : Option (Option ChangeRecord) :=
  (lookupStore d.store k).map (fun h => getItemCore h d.lookup_type d.lookup_ts)

/-- `__getitem__`: `KeyError` when the key is absent, when no record
resolves, or when the resolved record is a tombstone; otherwise the resolved
record's value. -/
def getitem (d : ChangeDataDict) (k : PyVal) : Except PyErr PyVal :=
  match lookupStore d.store k with
  | none => .error (.keyError k)
  | some h =>
      match getItemCore h d.lookup_type d.lookup_ts with
      | none => .error (.keyError k)
      | some item =>
          if item.del then .error (.keyError k) else .ok item.value

/-- `prior_ts(key)`: timestamp of the key's most recent record, `None` when
the key has no history. -/
def prior_ts (d : ChangeDataDict) (k : PyVal) : Option Int :=
  match lookupStore d.store k with
  | none => none
  | some h => (h.getLast?).map (·.ts)

/-- `prior_value_is_equal(key, value)`: whether the key has history and the
most recent record's `value` field equals the proposed value.  Note that the
`'del'` flag is not consulted. -/
def prior_value_is_equal (d : ChangeDataDict) (k : PyVal) (v : PyVal) : Bool :=
  match lookupStore d.store k with
  | none => false
  | some h =>
      match h.getLast? with
      | none => false
      | some r => r.value = v

/-- `prior_item_is_deleted(key)`. -/
def prior_item_is_deleted (d : ChangeDataDict) (k : PyVal) : Bool :=
  match lookupStore d.store k with
  | none => false
  | some h =>
      match h.getLast? with
      | none => false
      | some r => r.del

/-- The timestamp `_create_item` assigns: the pinned `set_ts` when
configured, otherwise the wall clock (`now`). -/
def assignTs (d : ChangeDataDict) (now : Int) : Int :=
  match d.set_ts with
  | none => now
  | some t => t

/-- `_create_item(value, delete, prior_ts)`: raises `ValueError` when a
prior timestamp exists and is `>=` the assigned timestamp; on success builds
the record and returns it with the new `_latest_ts` (the code sets
`self._latest_ts = ts` only after the ordering check passes). -/
def create_item (d : ChangeDataDict) (now : Int) (value : PyVal)
    (delete : Bool) (priorTs : Option Int) :
    Except PyErr (ChangeRecord × Int) :=
  let ts := assignTs d now
  match priorTs with
  | some p =>
      if p ≥ ts then .error .valueError
      else .ok ({ ts := ts, value := value, del := delete,
                  version := d.version, source := d.source }, ts)
  | none =>
      .ok ({ ts := ts, value := value, del := delete,
             version := d.version, source := d.source }, ts)

/-- Append a record to a key's history, initialising the history when the
key is new (`if key not in self._store: self._store[key] = []` followed by
`append`); a new key goes to the end of the insertion order. -/
def storeAppend (s : List (PyVal × List ChangeRecord)) (k : PyVal)
    (r : ChangeRecord) : List (PyVal × List ChangeRecord) :=
  match s with
  | [] => [(k, [r])]
  | (k', h) :: rest =>
      if k' = k then (k', h ++ [r]) :: rest
      else (k', h) :: storeAppend rest k r

/-- `__setitem__(key, value)`: lazy-update suppression first, then timestamp
assignment/validation, then append. -/
def setitem (d : ChangeDataDict) (now : Int) (k : PyVal) (v : PyVal) :
    Except PyErr ChangeDataDict :=
  if d.lazy_update && prior_value_is_equal d k v then .ok d
  else
    match create_item d now v false (prior_ts d k) with
    | .error e => .error e
    | .ok (item, ts) =>
        .ok { d with store := storeAppend d.store k item, latest_ts := ts }

/-- `__delitem__(key)`: `KeyError` when the key has no history or its most
recent record is already a tombstone; otherwise append a tombstone record
(value `None`) with a validated timestamp. -/
def delitem (d : ChangeDataDict) (now : Int) (k : PyVal) :
    Except PyErr ChangeDataDict :=
  if ¬ storeContains d.store k then .error (.keyError k)
  else if prior_item_is_deleted d k then .error (.keyError k)
  else
    match create_item d now .pynone true (prior_ts d k) with
    | .error e => .error e
    | .ok (item, ts) =>
        .ok { d with store := storeAppend d.store k item, latest_ts := ts }

/-- The `set_ts` property setter: accepts an integer `>= self.latest_ts`,
otherwise raises `ValueError`.  (The `isinstance(value, int)` check is
discharged by typing the argument as `Int`.) -/
def setSetTs (d : ChangeDataDict) (v : Int) : Except PyErr ChangeDataDict :=
  if v ≥ d.latest_ts then .ok { d with set_ts := some v }
  else .error .valueError

/-- `__iter__`, materialised: for each key in store order resolve the
current record; the code runs `item.get('del', False)` without a `None`
check, so a key whose record does not resolve raises `AttributeError`
(modelled as `none`); otherwise non-tombstoned keys are yielded. -/
def iterKeys (d : ChangeDataDict) : Option (List PyVal) :=
  iterGo d.store d.lookup_type d.lookup_ts
where
  iterGo : List (PyVal × List ChangeRecord) → LookupType → Option Int →
      Option (List PyVal)
  | [], _, _ => some []
  | (k, h) :: rest, lt, lts =>
      match getItemCore h lt lts with
      | none => none
      | some item =>
          match iterGo rest lt lts with
          | none => none
          | some ks => some (if item.del then ks else k :: ks)

/-- `__len__`: the number of keys in `self._store`, tombstoned or not. -/
def lenKeys (d : ChangeDataDict) : Nat :=
  d.store.length

/-- `ChangeDataDict.DELETED = (None, 'DELETED')`. -/
def DELETED : PyVal := .pair .pynone (.str "DELETED")

/-- `ChangeDataDict.NON_EXISTENT = (None, 'NON_EXISTENT')`. -/
def NON_EXISTENT : PyVal := .pair .pynone (.str "NON_EXISTENT")

/-- `to_value` inside `diff`: `None` → `NON_EXISTENT`, tombstone →
`DELETED`, otherwise the record's value. -/
def to_value (item : Option ChangeRecord) : PyVal :=
  match item with
  | none => NON_EXISTENT
  | some r => if r.del then DELETED else r.value

/-- `diff(lookup_type, lookup_ts)`: for each key with history, classify the
record under the active policy and under the comparison policy; keep the key
exactly when the two classified values differ (Python `!=`). -/
def diff (d : ChangeDataDict) (lt : LookupType) (lts : Option Int) :
    List (PyVal × (PyVal × PyVal)) :=
  diffGo d.store d.lookup_type d.lookup_ts lt lts
where
  diffGo : List (PyVal × List ChangeRecord) → LookupType → Option Int →
      LookupType → Option Int → List (PyVal × (PyVal × PyVal))
  | [], _, _, _, _ => []
  | (k, h) :: rest, clt, clts, lt, lts =>
      let v := to_value (getItemCore h clt clts)
      let cv := to_value (getItemCore h lt lts)
      let tail := diffGo rest clt clts lt lts
      if v ≠ cv then (k, (v, cv)) :: tail else tail

/-! ## JSON projection (`to_dict(snapshot=False)` / `to_json` and decoding)

`to_json` is `json.dumps(dict(self._store))`.  We model the textual
interchange form at the level of the JSON value tree: `encode` maps the raw
store to the tree `json.dumps` serialises (dictionary keys are stringified,
tuples become arrays), and `decode` maps a tree back to a store the way
`json.loads` reads it (object keys become strings, `null` becomes `None`).
-/

/-- A JSON value tree. -/
inductive Json where
  | null
  | bool (b : Bool)
  | int (n : Int)
  | str (s : String)
  | arr (xs : List Json)
  | obj (fields : List (String × Json))

/-- How `json.dumps` serialises the Python values of our fragment: `None` →
`null`, ints and strings directly, tuples as arrays. -/
def pyvalToJson : PyVal → Json
  | .pynone => .null
  | .int n => .int n
  | .str s => .str s
  | .pair a b => .arr [pyvalToJson a, pyvalToJson b]

/-- How `json.dumps` stringifies a dictionary key: strings kept, integers
rendered in decimal, `None` rendered `"null"`; tuple keys raise
`TypeError`. -/
def keyToString : PyVal → Option String
  | .str s => some s
  | .int n => some (toString n)
  | .pynone => some "null"
  | .pair _ _ => none

/-- The JSON object `json.dumps` produces for one history item: `ts` and
`value` always, `del` only when the record is a tombstone, `version` /
`source` only when configured. -/
def recordToJson (r : ChangeRecord) : Json :=
  .obj ([("ts", .int r.ts), ("value", pyvalToJson r.value)]
    ++ (if r.del then [("del", .bool true)] else [])
    ++ (match r.version with
        | none => []
        | some v => [("version", pyvalToJson v)])
    ++ (match r.source with
        | none => []
        | some v => [("source", pyvalToJson v)]))

/-- Encode the raw store (`to_dict(snapshot=False)`) as the JSON tree of
`to_json`; `none` models the `TypeError` on an unstringifiable key. -/
def encodeStore : List (PyVal × List ChangeRecord) →
    Option (List (String × Json))
  | [] => some []
  | (k, h) :: rest =>
      match keyToString k, encodeStore rest with
      | some s, some fs => some ((s, .arr (h.map recordToJson)) :: fs)
      | _, _ => none

/-- The full textual interchange tree of `to_json(snapshot=False)`. -/
def encode (s : List (PyVal × List ChangeRecord)) : Option Json :=
  (encodeStore s).map .obj

/-- How `json.loads` reads a JSON value back into our Python fragment:
`null` → `None`, ints and strings directly.  Arrays come back as Python
lists — not tuples — and objects as dictionaries, neither of which is a
value of the fragment, so they do not decode. -/
def jsonToPyVal : Json → Option PyVal
  | .null => some .pynone
  | .int n => some (.int n)
  | .str s => some (.str s)
  | _ => none

/-- Field lookup in a decoded JSON object. -/
def getField (fields : List (String × Json)) (name : String) : Option Json :=
  match fields with
  | [] => none
  | (n, j) :: rest => if n = name then some j else getField rest name

/-- Decode one history item: `ts` must be an integer, `value` a fragment
value; `del` defaults to false when absent; `version` / `source` are read
when present and representable. -/
def decodeRecord (j : Json) : Option ChangeRecord :=
  match j with
  | .obj fields =>
      match getField fields "ts" with
      | some (.int t) =>
          match (getField fields "value").bind jsonToPyVal with
          | some v =>
              some { ts := t, value := v,
                     del := (match getField fields "del" with
                             | some (.bool b) => b
                             | _ => false),
                     version := (getField fields "version").bind jsonToPyVal,
                     source := (getField fields "source").bind jsonToPyVal }
          | none => none
      | _ => none
  | _ => none

/-- Decode a key's history array. -/
def decodeHistory (j : Json) : Option (List ChangeRecord) :=
  match j with
  | .arr xs => go xs
  | _ => none
where
  go : List Json → Option (List ChangeRecord)
  | [] => some []
  | x :: rest =>
      match decodeRecord x, go rest with
      | some r, some rs => some (r :: rs)
      | _, _ => none

/-- Decode the outer object: every JSON object key reads back as a Python
string key. -/
def decode (j : Json) : Option (List (PyVal × List ChangeRecord)) :=
  match j with
  | .obj fields => go fields
  | _ => none
where
  go : List (String × Json) → Option (List (PyVal × List ChangeRecord))
  | [] => some []
  | (s, hj) :: rest =>
      match decodeHistory hj, go rest with
      | some h, some t => some ((.str s, h) :: t)
      | _, _ => none

/-! ## Spec-side resolution for AsOfTimestamp, and concrete states -/

/-- Modelled from the spec's words, for comparison with the `TIMESTAMP`
scan loop of `_get_item`: "the last record whose timestamp is ≤ the lookup
timestamp". -/
def specAsOf (h : List ChangeRecord) (t : Int) : Option ChangeRecord :=
  (h.filter (fun r => decide (r.ts ≤ t))).getLast?

/-- A plain (non-tombstone, untagged) history item. -/
def mkRecord (t : Int) (v : PyVal) : ChangeRecord :=
  { ts := t, value := v, del := false, version := none, source := none }

/-- An untagged tombstone item as `__delitem__` appends it. -/
def mkTombstone (t : Int) : ChangeRecord :=
  { ts := t, value := .pynone, del := true, version := none, source := none }

/-- State with one key `1 ↦ [{ts 10, value 5}]`, pinned timestamp 10 and
lazy updating enabled: reachable as
`ChangeDataDict(dic={1: 5}, set_ts=10, lazy_update=True)`. -/
def exLazyPinned : ChangeDataDict :=
  { initEmpty with
    lazy_update := true
    set_ts := some 10
    latest_ts := 10
    store := [(.int 1, [mkRecord 10 (.int 5)])] }

/-- State whose key `1` was written at pin 0 and tombstoned at pin 1, with
lazy updating enabled and the pin advanced to 2. -/
def exLazyTombstoned : ChangeDataDict :=
  { initEmpty with
    lazy_update := true
    set_ts := some 2
    latest_ts := 1
    store := [(.int 1, [mkRecord 0 (.int 5), mkTombstone 1])] }

/-- State under the `TIMESTAMP` policy whose lookup timestamp 4 predates
key `1`'s only record (written at pin 5). -/
def exEarlyLookup : ChangeDataDict :=
  { initEmpty with
    lookup_type := .TIMESTAMP
    lookup_ts := some 4
    latest_ts := 5
    set_ts := some 5
    store := [(.int 1, [mkRecord 5 (.int 5)])] }

/-- State under the `FIRST` policy with a single live key `1` written at
pin 0, the pin advanced to 1. -/
def exFirstLive : ChangeDataDict :=
  { initEmpty with
    lookup_type := .FIRST
    set_ts := some 1
    latest_ts := 0
    store := [(.int 1, [mkRecord 0 (.int 5)])] }

/-- State under the `FIRST` policy whose key `1` stores, as an ordinary
payload, the very tuple used as the `DELETED` sentinel, and was later
tombstoned. -/
def exSentinelPayload : ChangeDataDict :=
  { initEmpty with
    lookup_type := .FIRST
    latest_ts := 1
    set_ts := some 1
    store := [(.int 1, [mkRecord 0 DELETED, mkTombstone 1])] }

/-- State with the integer key `1`, as in the repository's `to_json` test:
`ChangeDataDict(dic={1: 5}, set_ts=0)`. -/
def exIntKey : ChangeDataDict :=
  { initEmpty with
    set_ts := some 0
    latest_ts := 0
    store := [(.int 1, [mkRecord 0 (.int 5)])] }

/-- The fragment of Python values that survives the JSON round trip
unchanged: `None`, integers and strings (tuples come back as lists). -/
def jsonStable : PyVal → Bool
  | .pynone => true
  | .int _ => true
  | .str _ => true
  | .pair _ _ => false

/-- A record whose payload and tags survive the JSON round trip. -/
def recordStable (r : ChangeRecord) : Bool :=
  jsonStable r.value
    && (match r.version with | none => true | some v => jsonStable v)
    && (match r.source with | none => true | some v => jsonStable v)

/-! ## Helper lemmas -/

theorem getLast?_cons_orElse (a : α) (l : List α) :
    (a :: l).getLast? = (l.getLast? <|> some a) := by
  induction l with
  | nil => rfl
  | cons b l ih =>
      rw [List.getLast?_cons_cons]
      cases l with
      | nil => rfl
      | cons c l => rw [List.getLast?_cons_cons]; rfl

theorem orElse_orElse_of_isSome (x y : Option α) (a : α) :
    ((x <|> some a) <|> y) = (x <|> some a) := by
  cases x <;> rfl

/-- On a strictly-increasing history, the `TIMESTAMP` scan loop of
`_get_item` computes the last record whose timestamp is `≤` the lookup
timestamp, falling back to the accumulator when no record qualifies. -/
theorem tsLoop_eq_filter (t : Int) (h : List ChangeRecord)
    (hs : h.Pairwise (fun a b => a.ts < b.ts)) (acc : Option ChangeRecord) :
    tsLoop acc h (some t) =
      ((h.filter fun r => decide (r.ts ≤ t)).getLast? <|> acc) := by
  induction h generalizing acc with
  | nil => rfl
  | cons r rest ih =>
      rw [List.pairwise_cons] at hs
      by_cases hrt : r.ts > t
      · have hexc : tsExceeds r.ts (some t) = true := by
          simp [tsExceeds, hrt]
        have hfilr : decide (r.ts ≤ t) = false := by
          simp; omega
        have hfil : rest.filter (fun r => decide (r.ts ≤ t)) = [] := by
          refine List.filter_eq_nil_iff.mpr (fun x hx => ?_)
          have := hs.1 x hx
          simp; omega
        rw [tsLoop, hexc, List.filter_cons, hfilr]
        simp [hfil]
      · have hexc : tsExceeds r.ts (some t) = false := by
          simp [tsExceeds]; omega
        have hfilr : decide (r.ts ≤ t) = true := by simp; omega
        rw [tsLoop, hexc, List.filter_cons, hfilr]
        simp only [ite_true, cond_true, Bool.false_eq_true, if_false]
        rw [ih hs.2 (some r), getLast?_cons_orElse,
          orElse_orElse_of_isSome]

/-- With no qualifying record the loop started on an empty accumulator
yields `None`; stated via the spec-side `specAsOf`. -/
theorem tsLoop_eq_specAsOf (t : Int) (h : List ChangeRecord)
    (hs : h.Pairwise (fun a b => a.ts < b.ts)) :
    tsLoop none h (some t) = specAsOf h t := by
  rw [tsLoop_eq_filter t h hs none, specAsOf]
  cases (h.filter fun r => decide (r.ts ≤ t)).getLast? <;> rfl

/-- When the earliest record postdates the lookup timestamp, no record
qualifies and `specAsOf` resolves nothing. -/
theorem specAsOf_eq_none_of_head_gt (t : Int) (h : List ChangeRecord)
    (hs : h.Pairwise (fun a b => a.ts < b.ts)) (r0 : ChangeRecord)
    (hh : h.head? = some r0) (hgt : t < r0.ts) :
    specAsOf h t = none := by
  cases h with
  | nil => simp at hh
  | cons a rest =>
      rw [List.head?_cons, Option.some_inj] at hh
      have hgt2 : t < a.ts := by rw [hh]; exact hgt
      rw [List.pairwise_cons] at hs
      have hfil : (a :: rest).filter (fun r => decide (r.ts ≤ t)) = [] := by
        refine List.filter_eq_nil_iff.mpr (fun x hx => ?_)
        rcases List.mem_cons.mp hx with hx | hx
        · subst hx; simp; omega
        · have := hs.1 x hx; simp; omega
      rw [specAsOf, hfil]; rfl

theorem lookupStore_storeAppend_self (s : List (PyVal × List ChangeRecord))
    (k : PyVal) (r : ChangeRecord) (h : List ChangeRecord)
    (hk : lookupStore s k = some h) :
    lookupStore (storeAppend s k r) k = some (h ++ [r]) := by
  induction s with
  | nil => simp [lookupStore] at hk
  | cons p rest ih =>
      obtain ⟨k', h'⟩ := p
      by_cases hkk : k' = k
      · subst hkk
        rw [lookupStore, if_pos rfl, Option.some_inj] at hk
        subst hk
        rw [storeAppend, if_pos rfl, lookupStore, if_pos rfl]
      · rw [lookupStore, if_neg hkk] at hk
        rw [storeAppend, if_neg hkk, lookupStore, if_neg hkk]
        exact ih hk

theorem lookupStore_storeAppend_ne (s : List (PyVal × List ChangeRecord))
    (k k' : PyVal) (r : ChangeRecord) (hne : k' ≠ k) :
    lookupStore (storeAppend s k r) k' = lookupStore s k' := by
  induction s with
  | nil =>
      rw [storeAppend, lookupStore, lookupStore, if_neg (fun hh => hne hh.symm)]
      rfl
  | cons p rest ih =>
      obtain ⟨k0, h0⟩ := p
      by_cases hk0 : k0 = k
      · subst hk0
        rw [storeAppend, if_pos rfl, lookupStore, lookupStore,
          if_neg (fun hh => hne hh.symm), if_neg (fun hh => hne hh.symm)]
      · rw [storeAppend, if_neg hk0]
        by_cases hk0' : k0 = k'
        · subst hk0'
          rw [lookupStore, lookupStore, if_pos rfl, if_pos rfl]
        · rw [lookupStore, lookupStore, if_neg hk0', if_neg hk0']
          exact ih

theorem length_storeAppend_of_contains (s : List (PyVal × List ChangeRecord))
    (k : PyVal) (r : ChangeRecord) (hc : storeContains s k = true) :
    (storeAppend s k r).length = s.length := by
  induction s with
  | nil => simp [storeContains, lookupStore] at hc
  | cons p rest ih =>
      obtain ⟨k', h'⟩ := p
      by_cases hkk : k' = k
      · subst hkk
        rw [storeAppend, if_pos rfl, List.length_cons, List.length_cons]
      · rw [storeAppend, if_neg hkk, List.length_cons, List.length_cons]
        rw [storeContains, lookupStore, if_neg hkk] at hc
        exact congrArg Nat.succ (ih hc)

theorem storeAppend_ne (s : List (PyVal × List ChangeRecord)) (k : PyVal)
    (r : ChangeRecord) : storeAppend s k r ≠ s := by
  induction s with
  | nil => simp [storeAppend]
  | cons p rest ih =>
      obtain ⟨k', h'⟩ := p
      by_cases hkk : k' = k
      · subst hkk
        rw [storeAppend, if_pos rfl]
        intro hcon
        injection hcon with h1 h2
        injection h1 with hk1 hh1
        have hlen := congrArg List.length hh1
        simp at hlen
      · rw [storeAppend, if_neg hkk]
        intro hcon
        injection hcon with h1 h2
        exact ih h2

theorem lookupStore_eq_none_of_not_mem (s : List (PyVal × List ChangeRecord))
    (k : PyVal) (hk : k ∉ s.map Prod.fst) : lookupStore s k = none := by
  induction s with
  | nil => rfl
  | cons p rest ih =>
      obtain ⟨k0, h0⟩ := p
      rw [List.map_cons, List.mem_cons] at hk
      push_neg at hk
      rw [lookupStore, if_neg (fun hh => hk.1 hh.symm)]
      exact ih hk.2

theorem lookupStore_mem (s : List (PyVal × List ChangeRecord)) (k : PyVal)
    (h : List ChangeRecord) (hk : lookupStore s k = some h) : (k, h) ∈ s := by
  induction s with
  | nil => simp [lookupStore] at hk
  | cons p rest ih =>
      obtain ⟨k0, h0⟩ := p
      by_cases hkk : k0 = k
      · subst hkk
        rw [lookupStore, if_pos rfl, Option.some_inj] at hk
        subst hk
        exact List.mem_cons_self _ _
      · rw [lookupStore, if_neg hkk] at hk
        exact List.mem_cons_of_mem _ (ih hk)

/-! ## The claims -/

/-- C1: for every key with non-empty (strictly increasing) history, the
current record is resolved by the active lookup policy — `LAST` yields the
last record, `FIRST` the first, `TIMESTAMP` the last record whose timestamp
is ≤ the lookup timestamp and none when the earliest record postdates it —
and `__getitem__` returns that record's value, raising `KeyError` exactly
when no record resolves or the resolved record is a tombstone. -/
theorem C1_get_resolution (d : ChangeDataDict) (k : PyVal)
    (h : List ChangeRecord)
    (hk : lookupStore d.store k = some h) (hne : h ≠ [])
    (hs : h.Pairwise (fun a b => a.ts < b.ts)) :
    (d.lookup_type = .LAST →
      getItemCore h d.lookup_type d.lookup_ts = h.getLast?) ∧
    (d.lookup_type = .FIRST →
      getItemCore h d.lookup_type d.lookup_ts = h.head?) ∧
    (∀ t, d.lookup_type = .TIMESTAMP → d.lookup_ts = some t →
      getItemCore h d.lookup_type d.lookup_ts = specAsOf h t ∧
      (∀ r0, h.head? = some r0 → t < r0.ts →
        getItemCore h d.lookup_type d.lookup_ts = none)) ∧
    (∀ v, getitem d k = .ok v ↔
      ∃ r, getItemCore h d.lookup_type d.lookup_ts = some r ∧
        r.del = false ∧ r.value = v) ∧
    (getitem d k = .error (.keyError k) ↔
      getItemCore h d.lookup_type d.lookup_ts = none ∨
      ∃ r, getItemCore h d.lookup_type d.lookup_ts = some r ∧
        r.del = true) := by
  refine ⟨?_, ?_, ?_, ?_, ?_⟩
  · intro hlt; rw [hlt]; rfl
  · intro hlt; rw [hlt]; rfl
  · intro t hlt hlts
    rw [hlt, hlts]
    simp only [getItemCore]
    refine ⟨tsLoop_eq_specAsOf t h hs, fun r0 hr0 hgt => ?_⟩
    rw [tsLoop_eq_specAsOf t h hs]
    exact specAsOf_eq_none_of_head_gt t h hs r0 hr0 hgt
  · intro v
    simp only [getitem, hk]
    cases hgi : getItemCore h d.lookup_type d.lookup_ts with
    | none => simp
    | some r =>
        by_cases hdel : r.del
        · simp [hdel]
        · simp [hdel]
  · simp only [getitem, hk]
    cases hgi : getItemCore h d.lookup_type d.lookup_ts with
    | none => simp
    | some r =>
        by_cases hdel : r.del
        · simp [hdel]
        · simp [hdel]

/-- C1 witness: under the `TIMESTAMP` policy with lookup timestamp 4, a key
whose only record was written at 5 resolves to no record and reading it
raises `KeyError`. -/
theorem C1_witness :
    getitem exEarlyLookup (.int 1) = .error (.keyError (.int 1)) := by
  have hmain := C1_get_resolution exEarlyLookup (.int 1)
    [mkRecord 5 (.int 5)] rfl (by simp) (by simp)
  exact (hmain.2.2.2.2).mpr (Or.inl rfl)

/-- C3 counterexample: on a freshly created structure the pin is set to 10
and then re-set to the strictly smaller 5, and the second assignment is
accepted, because the setter only compares against `latest_ts` (still 0 —
no write happened between the two pins). -/
theorem C3_counterexample :
    setSetTs initEmpty 10 = .ok { initEmpty with set_ts := some 10 } ∧
    setSetTs { initEmpty with set_ts := some 10 } 5 =
      .ok { initEmpty with set_ts := some 5 } ∧
    (5 : Int) < 10 :=
  ⟨rfl, rfl, by decide⟩

/-- C3 (amended): assigning the pinned timestamp succeeds exactly when the
new value is `≥` the global `latest_ts` and is rejected exactly when it is
below `latest_ts`; the pin is compared against the high-water mark of the
writes, not against the previously assigned pin, so it may decrease while
no write has raised `latest_ts`. -/
theorem C3_set_ts_floor (d : ChangeDataDict) (v : Int) :
    (setSetTs d v = .ok { d with set_ts := some v } ↔ d.latest_ts ≤ v) ∧
    (setSetTs d v = .error .valueError ↔ v < d.latest_ts) := by
  by_cases hv : v ≥ d.latest_ts
  · simp [setSetTs, hv]
  · simp [setSetTs, hv]
    omega

/-- C6 (code bug): under the `TIMESTAMP` policy with a lookup timestamp
that predates a key's earliest record, `get_item` resolves no record
(`__getitem__` and `diff` treat this as absence), but `__iter__` runs
`item.get('del', False)` on the unresolved `None` and blows up with
`AttributeError` (modelled by `iterKeys` returning `none`) instead of
skipping the key. -/
theorem C6_iter_crash :
    get_item exEarlyLookup (.int 1) = some none ∧
    getitem exEarlyLookup (.int 1) = .error (.keyError (.int 1)) ∧
    iterKeys exEarlyLookup = none :=
  ⟨rfl, rfl, rfl⟩

/-- C10: with lazy updating enabled, the value-equality check runs before
timestamp assignment and validation, so a write whose proposed value equals
the key's most recent `value` field returns successfully and changes
nothing, whatever timestamp would have been assigned. -/
theorem C10_lazy_before_ordering (d : ChangeDataDict) (now : Int)
    (k v : PyVal) (hlazy : d.lazy_update = true)
    (heq : prior_value_is_equal d k v = true) :
    setitem d now k v = .ok d := by
  simp [setitem, hlazy, heq]

/-- C10 witness: with the pin still 10 and the key's latest record also at
10 (so a non-suppressed write would violate strict increase), rewriting the
same value returns without any error and leaves the state unchanged. -/
theorem C10_witness :
    assignTs exLazyPinned 0 ≤ 10 ∧
    prior_ts exLazyPinned (.int 1) = some 10 ∧
    setitem exLazyPinned 0 (.int 1) (.int 5) = .ok exLazyPinned :=
  ⟨by decide, by decide,
    C10_lazy_before_ordering exLazyPinned 0 (.int 1) (.int 5) rfl (by decide)⟩

/-- C2 counterexample: with lazy updating enabled, the pin still 10 and
key `1`'s most recent record also at timestamp 10, rewriting the same value
is a write whose assigned timestamp (10) is not strictly greater than the
prior timestamp — yet it raises no ordering error and returns successfully,
because the lazy-equality check short-circuits before timestamp
validation. -/
theorem C2_counterexample :
    assignTs exLazyPinned 0 = 10 ∧
    prior_ts exLazyPinned (.int 1) = some 10 ∧
    setitem exLazyPinned 0 (.int 1) (.int 5) = .ok exLazyPinned :=
  ⟨rfl, rfl, rfl⟩

/-- C2 (amended): for a key with history, a write that is not suppressed by
lazy updating, and a delete of a non-tombstoned key, raise `ValueError`
when the assigned timestamp is not strictly greater than the key's most
recent timestamp, while a lazy-suppressed write returns the state
unchanged without any error.  `_create_item` raises before assigning
`_latest_ts` and before anything is appended, which the embedding reflects
by building the successor state only in the non-error branch: a rejected
operation leaves the history map and `latest_ts` untouched. -/
theorem C2_ordering_rejection (d : ChangeDataDict) (now : Int) (k v : PyVal)
    (h : List ChangeRecord) (r : ChangeRecord)
    (hk : lookupStore d.store k = some h) (hr : h.getLast? = some r)
    (hts : assignTs d now ≤ r.ts) :
    (¬ (d.lazy_update = true ∧ prior_value_is_equal d k v = true) →
      setitem d now k v = .error .valueError) ∧
    (d.lazy_update = true → prior_value_is_equal d k v = true →
      setitem d now k v = .ok d) ∧
    (r.del = false → delitem d now k = .error .valueError) := by
  have hpts : prior_ts d k = some r.ts := by
    simp [prior_ts, hk, hr]
  refine ⟨?_, ?_, ?_⟩
  · intro hnl
    have hcond : (d.lazy_update && prior_value_is_equal d k v) = false := by
      cases hl : d.lazy_update with
      | false => rfl
      | true =>
          cases hp : prior_value_is_equal d k v with
          | false => rfl
          | true => exact absurd ⟨hl, hp⟩ hnl
    simp only [setitem, hcond, Bool.false_eq_true, if_false, hpts,
      create_item]
    rw [if_pos (by omega)]
  · intro hl hp
    simp [setitem, hl, hp]
  · intro hrdel
    have hcont : storeContains d.store k = true := by
      simp [storeContains, hk]
    have hpid : prior_item_is_deleted d k = false := by
      simp [prior_item_is_deleted, hk, hr, hrdel]
    simp only [delitem, hcont, not_true, if_false, hpid, hpts, create_item,
      Bool.false_eq_true]
    rw [if_pos (by omega)]

/-- C2 witness: at the pinned state above, a write of a different value and
a delete both hit the stale timestamp 10 and raise `ValueError`; the lazy
rewrite of the same value is the suppressed case. -/
theorem C2_witness :
    setitem exLazyPinned 0 (.int 1) (.int 6) = .error .valueError ∧
    delitem exLazyPinned 0 (.int 1) = .error .valueError ∧
    setitem exLazyPinned 0 (.int 1) (.int 5) = .ok exLazyPinned := by
  have hmain := C2_ordering_rejection exLazyPinned 0 (.int 1) (.int 6)
    [mkRecord 10 (.int 5)] (mkRecord 10 (.int 5)) rfl rfl (by decide)
  have hmain5 := C2_ordering_rejection exLazyPinned 0 (.int 1) (.int 5)
    [mkRecord 10 (.int 5)] (mkRecord 10 (.int 5)) rfl rfl (by decide)
  exact ⟨hmain.1 (by decide), hmain.2.2 rfl, hmain5.2.1 rfl (by decide)⟩

/-- C4 counterexample: with lazy updating enabled, key `1`'s most recent
record is a tombstone (whose `value` field is `None`), and a `set` of
`None` is nevertheless suppressed — nothing is appended and the state is
returned unchanged — because `prior_value_is_equal` compares only the
`value` field and never consults the `del` flag. -/
theorem C4_counterexample :
    prior_item_is_deleted exLazyTombstoned (.int 1) = true ∧
    exLazyTombstoned.lazy_update = true ∧
    setitem exLazyTombstoned 100 (.int 1) .pynone = .ok exLazyTombstoned :=
  ⟨rfl, rfl, rfl⟩

/-- C4 (amended): with lazy updating enabled, a write is suppressed exactly
when the key has history and the proposed value equals the most recent
record's `value` field — whether or not that record is a tombstone.  Since
a tombstone stores `value = None`, writing `None` onto a tombstoned key is
suppressed, and writing any other value is not. -/
theorem C4_lazy_value_only (d : ChangeDataDict) (now : Int) (k v : PyVal)
    (hlazy : d.lazy_update = true) :
    (setitem d now k v = .ok d ↔ prior_value_is_equal d k v = true) ∧
    (∀ h r, lookupStore d.store k = some h → h.getLast? = some r →
      (setitem d now k v = .ok d ↔ r.value = v)) := by
  have hmain : setitem d now k v = .ok d ↔
      prior_value_is_equal d k v = true := by
    rcases Bool.eq_false_or_eq_true (prior_value_is_equal d k v) with
      hp | hp
    · rw [hp]
      simp [setitem, hlazy, hp]
    · rw [hp]
      simp only [setitem, hlazy, hp, Bool.and_false, Bool.false_eq_true,
        if_false]
      constructor
      · intro hcon
        cases hci : create_item d now v false (prior_ts d k) with
        | error e => rw [hci] at hcon; exact absurd hcon (by simp)
        | ok p =>
            obtain ⟨item, ts⟩ := p
            rw [hci] at hcon
            simp only [Except.ok.injEq] at hcon
            have hst : storeAppend d.store k item = d.store :=
              congrArg ChangeDataDict.store hcon
            exact absurd hst (storeAppend_ne d.store k item)
      · intro hcon
        exact absurd hcon (by simp)
  refine ⟨hmain, fun h r hk hr => ?_⟩
  rw [hmain]
  simp [prior_value_is_equal, hk, hr]

/-- C4 witness: the suppressed tombstone overwrite at the concrete state,
derived from the amended theorem. -/
theorem C4_witness :
    setitem exLazyTombstoned 100 (.int 1) .pynone = .ok exLazyTombstoned :=
  (C4_lazy_value_only exLazyTombstoned 100 (.int 1) .pynone rfl).1.mpr
    (by decide)

/-- The tombstone `_create_item(None, delete=True)` builds when the
ordering check passes: value `None`, `del` set, the configured tags. -/
def deleteRecord (d : ChangeDataDict) (now : Int) : ChangeRecord :=
  { ts := assignTs d now, value := .pynone, del := true,
    version := d.version, source := d.source }

/-- C5: `__delitem__` raises `KeyError` exactly when the key has no history
or its most recent record is already a tombstone; otherwise it validates
the assigned timestamp against the key's prior record (`ValueError` when
not strictly greater) and appends exactly one tombstone record with value
`None`, leaving every earlier record and every other key untouched. -/
theorem C5_delete (d : ChangeDataDict) (now : Int) (k : PyVal) :
    (delitem d now k = .error (.keyError k) ↔
      lookupStore d.store k = none ∨ prior_item_is_deleted d k = true) ∧
    (∀ h r, lookupStore d.store k = some h → h.getLast? = some r →
      r.del = false →
      (assignTs d now ≤ r.ts → delitem d now k = .error .valueError) ∧
      (r.ts < assignTs d now →
        delitem d now k = .ok { d with
          store := storeAppend d.store k (deleteRecord d now),
          latest_ts := assignTs d now } ∧
        lookupStore (storeAppend d.store k (deleteRecord d now)) k =
          some (h ++ [deleteRecord d now]) ∧
        (∀ k', k' ≠ k →
          lookupStore (storeAppend d.store k (deleteRecord d now)) k' =
            lookupStore d.store k'))) := by
  constructor
  · cases hk : lookupStore d.store k with
    | none =>
        have hcont : storeContains d.store k = false := by
          simp [storeContains, hk]
        simp [delitem, hcont]
    | some h =>
        have hcont : storeContains d.store k = true := by
          simp [storeContains, hk]
        cases hpid : prior_item_is_deleted d k with
        | true => simp [delitem, hcont, hpid]
        | false =>
            simp only [delitem, hcont, not_true, if_false, hpid,
              Bool.false_eq_true, Bool.true_eq_false]
            cases hci : create_item d now .pynone true (prior_ts d k) with
            | error e =>
                have he : e = .valueError := by
                  rcases hpe : prior_ts d k with _ | p <;>
                    simp [create_item, hpe] at hci
                  split at hci
                  · exact (Except.error.injEq .. ▸ hci).symm
                  · simp at hci
                subst he
                simp
            | ok p => simp
  · intro h r hk hr hrdel
    have hcont : storeContains d.store k = true := by
      simp [storeContains, hk]
    have hpid : prior_item_is_deleted d k = false := by
      simp [prior_item_is_deleted, hk, hr, hrdel]
    have hpts : prior_ts d k = some r.ts := by
      simp [prior_ts, hk, hr]
    constructor
    · intro hts
      simp only [delitem, hcont, not_true, if_false, hpid, hpts,
        create_item, Bool.false_eq_true]
      rw [if_pos (by omega)]
    · intro hts
      refine ⟨?_, lookupStore_storeAppend_self d.store k _ h hk,
        fun k' hk' => lookupStore_storeAppend_ne d.store k k' _ hk'⟩
      simp only [delitem, hcont, not_true, if_false, hpid, hpts,
        create_item, Bool.false_eq_true]
      rw [if_neg (by omega)]
      rfl

/-- C5 witness: deleting the live key `1` (written at pin 0, pin advanced
to 1) appends exactly the tombstone at timestamp 1; deleting it a second
time, or deleting an unknown key, raises `KeyError`. -/
theorem C5_witness :
    delitem exFirstLive 0 (.int 1) = .ok { exFirstLive with
      store := storeAppend exFirstLive.store (.int 1)
        (deleteRecord exFirstLive 0),
      latest_ts := assignTs exFirstLive 0 } ∧
    delitem exFirstLive 0 (.int 2) = .error (.keyError (.int 2)) := by
  have hmain := C5_delete exFirstLive 0 (.int 1)
  have hlive := hmain.2 [mkRecord 0 (.int 5)] (mkRecord 0 (.int 5))
    rfl rfl rfl
  have hmiss := (C5_delete exFirstLive 0 (.int 2)).1.mpr (Or.inl rfl)
  exact ⟨(hlive.2 (by decide)).1, hmiss⟩

theorem getLast?_isSome_of_ne_nil (l : List α) (h : l ≠ []) :
    ∃ a, l.getLast? = some a := by
  cases l with
  | nil => exact absurd rfl h
  | cons a t =>
      cases ht : t.getLast? with
      | none => exact ⟨a, by rw [getLast?_cons_orElse, ht]; rfl⟩
      | some b => exact ⟨b, by rw [getLast?_cons_orElse, ht]; rfl⟩

theorem iterGo_length_le (s : List (PyVal × List ChangeRecord))
    (lt : LookupType) (lts : Option Int) (ks : List PyVal)
    (h : iterKeys.iterGo s lt lts = some ks) : ks.length ≤ s.length := by
  induction s generalizing ks with
  | nil =>
      simp only [iterKeys.iterGo, Option.some_inj] at h
      subst h
      simp
  | cons p rest ih =>
      obtain ⟨k0, h0⟩ := p
      cases hgi : getItemCore h0 lt lts with
      | none => rw [iterKeys.iterGo, hgi] at h; exact absurd h (by simp)
      | some item =>
          cases hrest : iterKeys.iterGo rest lt lts with
          | none =>
              rw [iterKeys.iterGo, hgi, hrest] at h
              exact absurd h (by simp)
          | some ks0 =>
              rw [iterKeys.iterGo, hgi, hrest, Option.some_inj] at h
              subst h
              have hle := ih ks0 hrest
              cases hdel : item.del with
              | true => rw [if_pos rfl]; simp only [List.length_cons]; omega
              | false =>
                  rw [if_neg (by simp)]
                  simp only [List.length_cons]
                  omega

theorem iterGo_last_isSome (s : List (PyVal × List ChangeRecord))
    (lts : Option Int) (hne : ∀ p ∈ s, p.2 ≠ []) :
    ∃ ks, iterKeys.iterGo s .LAST lts = some ks := by
  induction s with
  | nil => exact ⟨[], rfl⟩
  | cons p rest ih =>
      obtain ⟨k0, h0⟩ := p
      obtain ⟨r, hr⟩ := getLast?_isSome_of_ne_nil h0
        (hne (k0, h0) (List.mem_cons_self _ _))
      obtain ⟨ks, hks⟩ := ih (fun p hp => hne p (List.mem_cons_of_mem _ hp))
      refine ⟨if r.del then ks else k0 :: ks, ?_⟩
      rw [iterKeys.iterGo]
      simp only [getItemCore]
      rw [hr, hks]

/-- Appending a tombstone to the first occurrence of a live key drops the
number of iterated keys by exactly one under the `LAST` policy. -/
theorem iterGo_last_append_tomb (s : List (PyVal × List ChangeRecord))
    (lts : Option Int) (k : PyVal) (h : List ChangeRecord)
    (rec : ChangeRecord) (hk : lookupStore s k = some h)
    (hrec : rec.del = true) (hne : ∀ p ∈ s, p.2 ≠ [])
    (r : ChangeRecord) (hr : h.getLast? = some r) (hrdel : r.del = false) :
    ∃ ks ks', iterKeys.iterGo s .LAST lts = some ks ∧
      iterKeys.iterGo (storeAppend s k rec) .LAST lts = some ks' ∧
      ks.length = ks'.length + 1 := by
  induction s with
  | nil => simp [lookupStore] at hk
  | cons p rest ih =>
      obtain ⟨k0, h0⟩ := p
      by_cases hkk : k0 = k
      · subst hkk
        rw [lookupStore, if_pos rfl, Option.some_inj] at hk
        subst hk
        obtain ⟨ks0, hks0⟩ := iterGo_last_isSome rest lts
          (fun p hp => hne p (List.mem_cons_of_mem _ hp))
        refine ⟨k0 :: ks0, ks0, ?_, ?_, by simp⟩
        · rw [iterKeys.iterGo]
          simp only [getItemCore]
          rw [hr, hks0]
          simp [hrdel]
        · rw [storeAppend, if_pos rfl, iterKeys.iterGo]
          simp only [getItemCore]
          rw [List.getLast?_concat, hks0]
          simp [hrec]
      · rw [lookupStore, if_neg hkk] at hk
        obtain ⟨r0, hr0⟩ := getLast?_isSome_of_ne_nil h0
          (hne (k0, h0) (List.mem_cons_self _ _))
        obtain ⟨ks, ks', hks, hks', hlen⟩ := ih hk
          (fun p hp => hne p (List.mem_cons_of_mem _ hp))
        refine ⟨if r0.del then ks else k0 :: ks,
          if r0.del then ks' else k0 :: ks', ?_, ?_, ?_⟩
        · rw [iterKeys.iterGo]
          simp only [getItemCore]
          rw [hr0, hks]
        · rw [storeAppend, if_neg hkk, iterKeys.iterGo]
          simp only [getItemCore]
          rw [hr0, hks']
        · cases r0.del <;> simp [hlen]

/-- Inversion of a successful `__delitem__`: the key was historied and not
tombstoned, and the successor state is exactly the old one with the
tombstone appended and `latest_ts` set to the assigned timestamp. -/
theorem delitem_ok_inv (d : ChangeDataDict) (now : Int) (k : PyVal)
    (d' : ChangeDataDict) (hok : delitem d now k = .ok d') :
    storeContains d.store k = true ∧ prior_item_is_deleted d k = false ∧
    d' = { d with store := storeAppend d.store k (deleteRecord d now),
                  latest_ts := assignTs d now } := by
  cases hcont : storeContains d.store k with
  | false => rw [delitem] at hok; simp [hcont] at hok
  | true =>
      cases hpid : prior_item_is_deleted d k with
      | true => rw [delitem] at hok; simp [hcont, hpid] at hok
      | false =>
          rw [delitem] at hok
          simp only [hcont, not_true, if_false, hpid, Bool.false_eq_true,
            Bool.true_eq_false, if_neg] at hok
          refine ⟨rfl, rfl, ?_⟩
          cases hpt : prior_ts d k with
          | none =>
              rw [hpt] at hok
              simp only [create_item, Except.ok.injEq] at hok
              rw [← hok]
              rfl
          | some p =>
              rw [hpt] at hok
              by_cases hge : p ≥ assignTs d now
              · simp [create_item, hge] at hok
              · simp only [create_item, hge, if_false, Except.ok.injEq]
                  at hok
                rw [← hok]
                rfl

/-- `exFirstLive` after its key `1` has been deleted at pin 1. -/
def exFirstDeleted : ChangeDataDict :=
  { exFirstLive with
    store := [(.int 1, [mkRecord 0 (.int 5), mkTombstone 1])]
    latest_ts := 1 }

/-- Like `exFirstLive` but under the default `LAST` policy. -/
def exLastLive : ChangeDataDict :=
  { initEmpty with
    set_ts := some 1
    latest_ts := 0
    store := [(.int 1, [mkRecord 0 (.int 5)])] }

/-- `exLastLive` after its key `1` has been deleted at pin 1. -/
def exLastDeleted : ChangeDataDict :=
  { exLastLive with
    store := [(.int 1, [mkRecord 0 (.int 5), mkTombstone 1])]
    latest_ts := 1 }

/-- C7 counterexample: under the `FIRST` policy, deleting the live key `1`
leaves the iteration count unchanged — the key's resolved current record is
still its first, non-tombstone record — although the claim asserts the
count drops by one after every deletion of a live key. -/
theorem C7_counterexample :
    iterKeys exFirstLive = some [.int 1] ∧
    delitem exFirstLive 0 (.int 1) = .ok exFirstDeleted ∧
    lenKeys exFirstDeleted = lenKeys exFirstLive ∧
    iterKeys exFirstDeleted = some [.int 1] :=
  ⟨rfl, rfl, rfl, rfl⟩

/-- C7 (amended): `len` counts every historied key, tombstoned or not,
while iteration yields only keys whose resolved record is live, so whenever
iteration completes it yields at most `len` keys; and after deleting a live
key `len` is unchanged while, under the `LAST` policy (where the current
record is the appended tombstone), the iteration count drops by exactly
one.  Under other policies the deletion need not change the resolved record
and the count can stay the same. -/
theorem C7_len_vs_iteration (d : ChangeDataDict) :
    (∀ ks, iterKeys d = some ks → ks.length ≤ lenKeys d) ∧
    (d.lookup_type = .LAST → (∀ p ∈ d.store, p.2 ≠ []) →
      ∀ now k d', delitem d now k = .ok d' →
        lenKeys d' = lenKeys d ∧
        ∃ ks ks', iterKeys d = some ks ∧ iterKeys d' = some ks' ∧
          ks.length = ks'.length + 1) := by
  constructor
  · intro ks hks
    exact iterGo_length_le d.store d.lookup_type d.lookup_ts ks hks
  · intro hlt hne now k d' hok
    obtain ⟨hcont, hpid, hd'⟩ := delitem_ok_inv d now k d' hok
    obtain ⟨h, hk⟩ := Option.isSome_iff_exists.mp hcont
    have hhne : h ≠ [] := hne (k, h) (lookupStore_mem d.store k h hk)
    obtain ⟨r, hr⟩ := getLast?_isSome_of_ne_nil h hhne
    have hrdel : r.del = false := by
      simp only [prior_item_is_deleted, hk, hr] at hpid
      exact hpid
    subst hd'
    constructor
    · exact length_storeAppend_of_contains d.store k _ hcont
    · obtain ⟨ks, ks', hks, hks', hlen⟩ :=
        iterGo_last_append_tomb d.store d.lookup_ts k h (deleteRecord d now)
          hk rfl hne r hr hrdel
      refine ⟨ks, ks', ?_, ?_, hlen⟩
      · rw [iterKeys, hlt]
        exact hks
      · rw [iterKeys, hlt]
        exact hks'

/-- C7 witness: under the `LAST` policy, deleting the live key `1` leaves
`len` at 1 and drops the iteration count by one. -/
theorem C7_witness :
    lenKeys exLastDeleted = lenKeys exLastLive ∧
    ∃ ks ks', iterKeys exLastLive = some ks ∧
      iterKeys exLastDeleted = some ks' ∧ ks.length = ks'.length + 1 :=
  (C7_len_vs_iteration exLastLive).2 rfl (by decide) 0 (.int 1)
    exLastDeleted rfl

/-- C8 counterexample: key `1` stores, as an ordinary payload, the tuple
`(None, 'DELETED')` (the `DELETED` class constant) and is later
tombstoned.  Under the active `FIRST` policy the key resolves to the
non-tombstone payload record while the comparison `LAST` policy resolves to
the tombstone — the two classifications (an actual value vs. the `DELETED`
sentinel) differ — yet `diff` reports nothing, because the sentinel is an
ordinary tuple structurally equal to the stored payload. -/
theorem C8_counterexample :
    getItemCore [mkRecord 0 DELETED, mkTombstone 1]
      exSentinelPayload.lookup_type exSentinelPayload.lookup_ts =
      some (mkRecord 0 DELETED) ∧
    (mkRecord 0 DELETED).del = false ∧
    getItemCore [mkRecord 0 DELETED, mkTombstone 1] .LAST none =
      some (mkTombstone 1) ∧
    (mkTombstone 1).del = true ∧
    diff exSentinelPayload .LAST none = [] :=
  ⟨rfl, rfl, rfl, rfl, rfl⟩

theorem diffGo_mem (s : List (PyVal × List ChangeRecord))
    (clt : LookupType) (clts : Option Int) (lt : LookupType)
    (lts : Option Int) (hnodup : (s.map Prod.fst).Nodup)
    (k a b : PyVal) :
    (k, (a, b)) ∈ diff.diffGo s clt clts lt lts ↔
      ∃ h, lookupStore s k = some h ∧
        a = to_value (getItemCore h clt clts) ∧
        b = to_value (getItemCore h lt lts) ∧ a ≠ b := by
  induction s with
  | nil => simp [diff.diffGo, lookupStore]
  | cons p rest ih =>
      obtain ⟨k0, h0⟩ := p
      rw [List.map_cons, List.nodup_cons] at hnodup
      have ihr := ih hnodup.2
      rw [diff.diffGo]
      by_cases hkk : k0 = k
      · subst hkk
        have hrest : lookupStore rest k0 = none :=
          lookupStore_eq_none_of_not_mem rest k0 hnodup.1
        rw [lookupStore, if_pos rfl]
        constructor
        · intro hmem
          by_cases hne : to_value (getItemCore h0 clt clts) ≠
              to_value (getItemCore h0 lt lts)
          · rw [if_pos hne] at hmem
            rcases List.mem_cons.mp hmem with heq | hmem
            · obtain ⟨hk, hab⟩ := Prod.mk.injEq .. ▸ heq
              obtain ⟨ha, hb⟩ := Prod.mk.injEq .. ▸ hab
              exact ⟨h0, rfl, ha.symm ▸ rfl, hb.symm ▸ rfl, by
                rw [ha, hb]; exact hne⟩
            · obtain ⟨h, hk, _⟩ := ihr.mp hmem
              rw [hrest] at hk
              exact absurd hk (by simp)
          · rw [if_neg hne] at hmem
            obtain ⟨h, hk, _⟩ := ihr.mp hmem
            rw [hrest] at hk
            exact absurd hk (by simp)
        · rintro ⟨h, hk, ha, hb, hab⟩
          rw [Option.some_inj] at hk
          subst hk
          subst ha
          subst hb
          rw [if_pos hab]
          exact List.mem_cons_self _ _
      · rw [lookupStore, if_neg hkk]
        have hhead : ((k, (a, b)) ∈
            [(k0, (to_value (getItemCore h0 clt clts),
              to_value (getItemCore h0 lt lts)))]) = False := by
          simp
          intro hcon
          exact absurd hcon.symm hkk
        by_cases hne : to_value (getItemCore h0 clt clts) ≠
            to_value (getItemCore h0 lt lts)
        · rw [if_pos hne, List.mem_cons]
          constructor
          · rintro (heq | hmem)
            · exact absurd (congrArg Prod.fst heq).symm hkk
            · exact ihr.mp hmem
          · intro hex
            exact Or.inr (ihr.mpr hex)
        · rw [if_neg hne]
          exact ihr

/-- C8 (amended): a key appears in the `diff` result exactly when the two
classified values — the record's payload for a live record, the tuple
`DELETED` for a tombstone, the tuple `NON_EXISTENT` when nothing resolves —
differ under structural equality; the two sentinels are distinct from each
other, but they are ordinary tuple values, so a stored payload equal to a
sentinel is indistinguishable from it (the classification collapses, as the
counterexample shows). -/
theorem C8_diff_membership (d : ChangeDataDict) (lt : LookupType)
    (lts : Option Int) (hnodup : (d.store.map Prod.fst).Nodup)
    (k a b : PyVal) :
    ((k, (a, b)) ∈ diff d lt lts ↔
      ∃ h, lookupStore d.store k = some h ∧
        a = to_value (getItemCore h d.lookup_type d.lookup_ts) ∧
        b = to_value (getItemCore h lt lts) ∧ a ≠ b) ∧
    DELETED ≠ NON_EXISTENT :=
  ⟨diffGo_mem d.store d.lookup_type d.lookup_ts lt lts hnodup k a b,
    by decide⟩

/-- C8 witness: on the tombstoned key the diff of the `LAST` view against
the `FIRST` view reports the pair `(DELETED, 5)`. -/
theorem C8_witness :
    (.int 1, (DELETED, .int 5)) ∈ diff exLazyTombstoned .FIRST none ∧
    DELETED ≠ NON_EXISTENT := by
  have hmain := C8_diff_membership exLazyTombstoned .FIRST none
    (by decide) (.int 1) DELETED (.int 5)
  exact ⟨hmain.1.mpr ⟨[mkRecord 0 (.int 5), mkTombstone 1], rfl,
    by decide, by decide, by decide⟩, hmain.2⟩

/-- C9 counterexample: the repository's own `to_json` scenario
(`ChangeDataDict(dic={1: 5}, set_ts=0)`) has the integer key `1`;
`json.dumps` stringifies it to `"1"`, so decoding the encoded projection
yields the string key `"1"` instead of the integer key `1` — the per-key
record content survives but the keys do not. -/
theorem C9_counterexample :
    (encode exIntKey.store).bind decode =
      some [(.str "1", [mkRecord 0 (.int 5)])] ∧
    (encode exIntKey.store).bind decode ≠ some exIntKey.store :=
  ⟨rfl, by decide⟩

theorem jsonToPyVal_pyvalToJson (v : PyVal) (hv : jsonStable v = true) :
    jsonToPyVal (pyvalToJson v) = some v := by
  cases v <;> simp [jsonStable, pyvalToJson, jsonToPyVal] at hv ⊢

/-- A JSON-stable record decodes back from its encoded object. -/
theorem decodeRecord_recordToJson (r : ChangeRecord)
    (hr : recordStable r = true) :
    decodeRecord (recordToJson r) = some r := by
  obtain ⟨t, v, dl, ver, src⟩ := r
  simp only [recordStable, Bool.and_eq_true] at hr
  obtain ⟨⟨hv, hver⟩, hsrc⟩ := hr
  cases dl <;> cases ver <;> cases src <;>
    simp_all [recordToJson, decodeRecord, getField,
      jsonToPyVal_pyvalToJson]

/-- A history of JSON-stable records decodes back from its encoded
array. -/
theorem decodeHistory_map (h : List ChangeRecord)
    (hs : ∀ r ∈ h, recordStable r = true) :
    decodeHistory (.arr (h.map recordToJson)) = some h := by
  rw [decodeHistory]
  induction h with
  | nil => rfl
  | cons r rest ih =>
      rw [List.map_cons, decodeHistory.go,
        decodeRecord_recordToJson r (hs r (List.mem_cons_self _ _)),
        ih (fun x hx => hs x (List.mem_cons_of_mem _ hx))]

theorem roundtrip_go (s : List (PyVal × List ChangeRecord))
    (hkeys : ∀ p ∈ s, ∃ str, p.1 = PyVal.str str)
    (hrecs : ∀ p ∈ s, ∀ r ∈ p.2, recordStable r = true) :
    ∃ fs, encodeStore s = some fs ∧ decode.go fs = some s := by
  induction s with
  | nil => exact ⟨[], rfl, rfl⟩
  | cons p rest ih =>
      obtain ⟨k, h⟩ := p
      obtain ⟨str, hstr⟩ := hkeys (k, h) (List.mem_cons_self _ _)
      obtain ⟨fs, hfs, hdec⟩ := ih
        (fun p hp => hkeys p (List.mem_cons_of_mem _ hp))
        (fun p hp => hrecs p (List.mem_cons_of_mem _ hp))
      subst hstr
      refine ⟨(str, .arr (h.map recordToJson)) :: fs, ?_, ?_⟩
      · rw [encodeStore, keyToString, hfs]
      · rw [decode.go,
          decodeHistory_map h
            (hrecs (.str str, h) (List.mem_cons_self _ _)), hdec]

/-- C9 (amended): for a store whose keys are strings and whose record
payloads and tags lie in the JSON-stable fragment, decoding the encoded
non-snapshot projection reproduces the same per-key ordered record
sequences — same keys, timestamps, values, delete flags and version/source
tags.  For other keys the round trip stringifies them (and tuple payloads
come back as lists), as the counterexample shows. -/
theorem C9_roundtrip (s : List (PyVal × List ChangeRecord))
    (hkeys : ∀ p ∈ s, ∃ str, p.1 = PyVal.str str)
    (hrecs : ∀ p ∈ s, ∀ r ∈ p.2, recordStable r = true) :
    (encode s).bind decode = some s := by
  obtain ⟨fs, hfs, hdec⟩ := roundtrip_go s hkeys hrecs
  rw [encode, hfs]
  exact hdec

/-- A reachable state with a string key, for the round-trip witness:
`ChangeDataDict(dic={'a': 5}, set_ts=0)`. -/
def exStrKey : ChangeDataDict :=
  { initEmpty with
    set_ts := some 0
    latest_ts := 0
    store := [(.str "a", [mkRecord 0 (.int 5)])] }

/-- C9 witness: the string-keyed store round-trips losslessly. -/
theorem C9_witness :
    (encode exStrKey.store).bind decode = some exStrKey.store :=
  C9_roundtrip exStrKey.store
    (by
      intro p hp
      rcases List.mem_singleton.mp hp with rfl
      exact ⟨"a", rfl⟩)
    (by decide)

end ChangeData
